import Mathlib

/-!
Verification of the `FC4Fit` force-constant fitting core
(`anharmonic/force_fit/fc4.py`) and of the symfc calculator interface
(`phonopy/interface/symfc.py`).

Vectors are `List ℚ` and matrices are lists of rows (`List (List ℚ)`),
mirroring numpy's dynamically shaped `double` arrays with exact rational
arithmetic.  External collaborators that are not part of the sources
(`similarity_transformation`, `get_positions_sent_by_rot_inv`,
`get_reduced_site_symmetry`, `np.linalg.pinv`, the symfc package) are taken
as function parameters, so every theorem quantifies over their behaviour.
-/

-- Batteries marks the rational operations `@[irreducible]`, which prevents
-- `decide` from evaluating concrete runs of the embedded functions; restore
-- the default reducibility inside this file.
attribute [local semireducible] Rat.add Rat.mul Rat.inv Rat.sub Rat.ofScientific

abbrev Vec := List ℚ
abbrev Mat := List Vec

/-- Decidable equality for `Except` values, used to evaluate concrete runs of
the embedded functions. -/
instance exceptDecEq {e a : Type} [DecidableEq e] [DecidableEq a] :
    DecidableEq (Except e a) := fun x y =>
  match x, y with
  | .error u, .error v =>
    if h : u = v then .isTrue (by rw [h]) else
      .isFalse (fun hc => h (Except.error.inj hc))
  | .ok u, .ok v =>
    if h : u = v then .isTrue (by rw [h]) else
      .isFalse (fun hc => h (Except.ok.inj hc))
  | .error _, .ok _ => .isFalse (fun hc => Except.noConfusion hc)
  | .ok _, .error _ => .isFalse (fun hc => Except.noConfusion hc)

/-- Shortcut instance: decidable equality for the result pairs of the
distribute stage (the default instance search exceeds its size limit on this
deeply nested type). -/
instance decEqDistPair :
    DecidableEq (List (List (Vec × Vec)) × List (Option (List Mat))) :=
  instDecidableEqProd

/-- Dot product of two vectors (`np.dot` on 1-d arrays). -/
def dot (u v : Vec) : ℚ := (List.zipWith (· * ·) u v).sum

/-- Scale a vector by a rational. -/
def scaleVec (x : ℚ) (v : Vec) : Vec := v.map (fun y => x * y)

/-- Componentwise vector addition. -/
def vecAdd (u v : Vec) : Vec := List.zipWith (· + ·) u v

/-- Linear combination of the rows of `b` with coefficients `r`: the row
`r · b` of a matrix product. -/
def linComb (r : Vec) (b : Mat) : Vec :=
  match List.zipWith scaleVec r b with
  | [] => []
  | h :: t => t.foldl vecAdd h

/-- Matrix product (`np.dot` on 2-d arrays): row `i` of the result is the
linear combination of the rows of `b` with coefficients from row `i` of `a`. -/
def matMul (a b : Mat) : Mat := a.map (fun r => linComb r b)

/-- Matrix–vector product (`np.dot(m, v)`). -/
def matVec (m : Mat) (v : Vec) : Vec := m.map (fun row => dot row v)

/-- Matrix transpose (`.T`) for rectangular row-major matrices. -/
def transposeM (m : Mat) : Mat :=
  match m with
  | [] => []
  | r :: _ => (List.range r.length).map (fun c => m.map (fun row => row.getD c 0))

/-- Entrywise negation of a matrix (unary `-`). -/
def matNeg (m : Mat) : Mat := m.map (fun r => r.map (fun x => -x))

/-- Row-major flattening of the outer product of two vectors
(`np.outer(u, v).flatten()`). -/
def outerFlat (u v : Vec) : Vec := u.flatMap (fun x => v.map (fun y => x * y))

/-- Entrywise sum of two matrices. -/
def matAdd (a b : Mat) : Mat := List.zipWith vecAdd a b

/-- Entrywise sum of two lists of matrices (`+=` on an `(N, 3, 3)` slice). -/
def addNN (a b : List Mat) : List Mat := List.zipWith matAdd a b

/-- Divide every entry of a list of matrices by the natural number `n`
(`/= num_atom` on an `(N, 3, 3)` slice). -/
def divBlocks (n : ℕ) (a : List Mat) : List Mat :=
  a.map (fun m => m.map (fun r => r.map (fun x => x / (n : ℚ))))

/-- The 3×3 identity matrix, used as a concrete symmetry operation. -/
def idMat3 : Mat := [[1, 0, 0], [0, 1, 0], [0, 0, 1]]

/-- An all-zero `r × c` matrix (`np.zeros`). -/
def zerosMat (r c : ℕ) : Mat := List.replicate r (List.replicate c (0 : ℚ))

/-- Sorted list of the distinct values of a list (`np.unique`). -/
def npUnique (l : List ℕ) : List ℕ := (l.insertionSort (· ≤ ·)).dedup

/-- One `second_atoms` entry of the displacement dataset: the second
perturbed atom, its displacement, and the resulting `N × 3` force array. -/
structure SecondAtomRecord where
  number : ℕ
  displacement : Vec
  forces : Mat
deriving DecidableEq

/-- One `first_atoms` entry of the displacement dataset. -/
structure FirstAtomRecord where
  number : ℕ
  displacement : Vec
  second_atoms : List SecondAtomRecord
deriving DecidableEq

/-- Results of the external symmetry collaborators, per first atom:
`siteSym` models `symmetry.get_site_symmetry`, `rotMapSyms` models
`get_positions_sent_by_rot_inv` on the full site symmetry, and
`reducedSym` / `reducedRotMap` model `get_reduced_site_symmetry` and
`get_positions_sent_by_rot_inv` on the reduced site symmetry for a given
first-atom displacement. -/
structure SymInfo where
  siteSym : ℕ → List Mat
  rotMapSyms : ℕ → List (List ℕ)
  reducedSym : ℕ → Vec → List Mat
  reducedRotMap : ℕ → Vec → List (List ℕ)

/-! ## Embedding of `FC4Fit._collect_disp_pairs_and_forces` (grouping stage) -/

/-- Inner loop of the collector for a fixed second atom `k`: walk the
`second_atoms` records in order and append the displacement and force array
of every record whose `number` equals `k` (duplicates retained). -/
def collectPair (k : ℕ) (recs : List SecondAtomRecord) : List Vec × List Mat :=
  recs.foldl
    (fun acc r =>
      if r.number = k then (acc.1 ++ [r.displacement], acc.2 ++ [r.forces]) else acc)
    ([], [])

/-- Grouping stage of `_collect_disp_pairs_and_forces`: for every second atom
index `0 ≤ k < numAtom`, either `none` (no direct sample) or the ordered lists
of sampled displacements and force arrays for the pair `(first, k)`. -/
def collectRaw (numAtom : ℕ) (rec : FirstAtomRecord) :
    List (Option (List Vec)) × List (Option (List Mat)) :=
  let unique := npUnique (rec.second_atoms.map (fun r => r.number))
  ((List.range numAtom).map (fun k =>
      if k ∈ unique then some (collectPair k rec.second_atoms).1 else none),
   (List.range numAtom).map (fun k =>
      if k ∈ unique then some (collectPair k rec.second_atoms).2 else none))

/-! ## Embedding of `FC4Fit._copy_dataset_2nd` (symmetry completion) -/

/-- Embedding of `_copy_dataset_2nd`.  `simTrans` models the external
`similarity_transformation(lattice, sym)` call.  The scan over
`enumerate(reduced_site_sym)` picks the first operation whose image of
`second_atom_num` under `rot_map_syms` lies in `unique_second_atom_nums`;
the Python `assert sym_cart is not None, "Something is wrong."` becomes the
error value. -/
def copyDataset2nd (simTrans : Mat → Mat) (second_atom_num : ℕ)
    (set_of_disps : List (Option (List Vec)))
    (sets_of_forces : List (Option (List Mat)))
    (unique_second_atom_nums : List ℕ)
    (reduced_site_sym : List Mat)
    (rot_map_syms : List (List ℕ)) : Except String (List Mat × List Vec) :=
  match (List.range reduced_site_sym.length).find?
      (fun i =>
        decide (((rot_map_syms.getD i []).getD second_atom_num 0)
          ∈ unique_second_atom_nums)) with
  | none => .error "Something is wrong."
  | some i =>
    let sym_cart := simTrans (reduced_site_sym.getD i [])
    let rot_atom_map := rot_map_syms.getD i []
    let src := rot_atom_map.getD second_atom_num 0
    let forces := ((sets_of_forces.getD src none).getD []).map
      (fun F => matMul (rot_atom_map.map (fun j => F.getD j [])) (transposeM sym_cart))
    let disps := ((set_of_disps.getD src none).getD []).map (fun d => matVec sym_cart d)
    .ok (forces, disps)

/-! ## Embedding of `FC4Fit._distribute_displacements_and_forces` -/

/-- Loop body of `_distribute_displacements_and_forces`: for each second atom
index in turn, either pair the direct displacements with `disp1`, or complete
the missing data via `copyDataset2nd` and store the completed forces back into
the (mutable, in Python) `sets_of_forces` list. -/
def distLoop (simTrans : Mat → Mat) (disp1 : Vec)
    (set_of_disps : List (Option (List Vec)))
    (unique : List ℕ) (reduced : List Mat) (rot_map_syms : List (List ℕ)) :
    List ℕ → List (List (Vec × Vec)) × List (Option (List Mat)) →
    Except String (List (List (Vec × Vec)) × List (Option (List Mat)))
  | [], st => .ok st
  | k :: rest, st =>
    match set_of_disps.getD k none with
    | some ds =>
        distLoop simTrans disp1 set_of_disps unique reduced rot_map_syms rest
          (st.1 ++ [ds.map (fun d => (disp1, d))], st.2)
    | none =>
        match copyDataset2nd simTrans k set_of_disps st.2 unique reduced rot_map_syms with
        | .error e => .error e
        | .ok (fs, ds2) =>
            distLoop simTrans disp1 set_of_disps unique reduced rot_map_syms rest
              (st.1 ++ [ds2.map (fun d => (disp1, d))], st.2.set k (some fs))

/-- Embedding of `_distribute_displacements_and_forces`.  The reduced site
symmetry and its rotation atom map are results of external collaborators and
are taken as arguments. -/
def distributeDF (simTrans : Mat → Mat) (numAtom : ℕ) (disp1 : Vec)
    (set_of_disps : List (Option (List Vec)))
    (sets_of_forces : List (Option (List Mat)))
    (unique : List ℕ) (reduced : List Mat) (rot_map_syms : List (List ℕ)) :
    Except String (List (List (Vec × Vec)) × List (Option (List Mat))) :=
  distLoop simTrans disp1 set_of_disps unique reduced rot_map_syms
    (List.range numAtom) ([], sets_of_forces)

/-- Embedding of the full `_collect_disp_pairs_and_forces`: group the raw
records, then distribute displacements and forces over the missing second
atoms. -/
def collectDispPairsAndForces (simTrans : Mat → Mat) (numAtom : ℕ) (sy : SymInfo)
    (rec : FirstAtomRecord) :
    Except String (List (List (Vec × Vec)) × List (Option (List Mat))) :=
  let unique := npUnique (rec.second_atoms.map (fun r => r.number))
  distributeDF simTrans numAtom rec.displacement
    (collectRaw numAtom rec).1 (collectRaw numAtom rec).2 unique
    (sy.reducedSym rec.number rec.displacement)
    (sy.reducedRotMap rec.number rec.displacement)

/-! ## Embedding of `FC4Fit._create_displacement_matrix` -/

/-- Prepend a ones column and horizontally stack three row lists
(`np.hstack((ones, rot_disps1, rot_disps2, rot_disps_pair))`). -/
def hstack1 : Mat → Mat → Mat → Mat
  | x :: xs, y :: ys, z :: zs => ((1 : ℚ) :: (x ++ y ++ z)) :: hstack1 xs ys zs
  | _, _, _ => []

/-- Embedding of `_create_displacement_matrix`: for every site-symmetry
operation paired with its rotation-atom-map entry, and every displacement pair
sampled at the rotated second atom, record the rotated first and second
displacements and their flattened outer product, then horizontally stack them
behind a ones column. -/
def createDisplacementMatrix (simTrans : Mat → Mat)
    (disp_pairs : List (List (Vec × Vec)))
    (site_symmetry : List Mat) (rot_atom_map : List ℕ) : Mat :=
  let triples := (rot_atom_map.zip site_symmetry).flatMap (fun p =>
    (disp_pairs.getD p.1 []).map (fun uv =>
      let ssym_c := simTrans p.2
      let su1 := matVec ssym_c uv.1
      let su2 := matVec ssym_c uv.2
      (su1, su2, outerFlat su1 su2)))
  hstack1 (triples.map (fun t => t.1)) (triples.map (fun t => t.2.1))
    (triples.map (fun t => t.2.2))

/-! ## Embedding of `FC4Fit._create_force_matrix` -/

/-- Embedding of `_create_force_matrix`: for every target atom `i`, stack, for
each (rotation-atom-map row, rotated second atom, Cartesian site symmetry)
triple and each force array sampled at the rotated second atom, the rotated
force vector of atom `map_sym[i]`. -/
def createForceMatrix (simTrans : Mat → Mat) (numAtom : ℕ)
    (sets_of_forces : List (Option (List Mat)))
    (site_symmetry : List Mat) (rot_atom_map : List ℕ)
    (rot_map_syms : List (List ℕ)) : List Mat :=
  let site_syms_cart := site_symmetry.map simTrans
  (List.range numAtom).map (fun i =>
    (rot_map_syms.zip (rot_atom_map.zip site_syms_cart)).flatMap (fun t =>
      ((sets_of_forces.getD t.2.1 none).getD []).map (fun forces =>
        matVec t.2.2 (forces.getD (t.1.getD i 0) []))))

/-! ## Embedding of `FC4Fit._solve` -/

/-- Embedding of the incremental `np.vstack` accumulation starting from
`None`: returns `none` exactly when the list of stacked matrices is empty. -/
def stackOpt (ms : List Mat) : Option Mat :=
  ms.foldl
    (fun acc d => match acc with
      | none => some d
      | some a => some (a ++ d))
    none

/-- Per-target-atom loop of `_solve`: stack the force matrices of atom `i`
over all dataset directions and multiply by the (already computed)
pseudo-inverse, negated. -/
def solveLoop (inv_disps : Mat) (rot_forces : List (List Mat)) :
    List ℕ → Option (List Mat)
  | [] => some []
  | i :: rest =>
    match stackOpt (rot_forces.map (fun f => f.getD i [])) with
    | none => none
    | some forces =>
        (solveLoop inv_disps rot_forces rest).map
          (fun fcs => matNeg (matMul inv_disps forces) :: fcs)

/-- Embedding of `_solve`: vertically stack the displacement matrices of all
dataset directions, compute the pseudo-inverse once (`pinv` models
`np.linalg.pinv`), and solve for every target atom with that shared inverse. -/
def solve (numAtom : ℕ) (pinv : Mat → Mat) (rot_disps : List Mat)
    (rot_forces : List (List Mat)) : Option (List Mat) :=
  match stackOpt rot_disps with
  | none => none
  | some disps => solveLoop (pinv disps) rot_forces (List.range numAtom)

/-! ## Embedding of `FC4Fit._fit` -/

/-- A `3 × 3 × 3` third-order block, stored as three `3 × 3` matrices. -/
abbrev T3 := List Mat

/-- Slice `fc[i][1:4, :]` of a fitted 16-row coefficient matrix: the forward
second-order block. -/
def sliceFc2 (fci : Mat) : Mat := (fci.drop 1).take 3

/-- Slice `fc[i][4:7, :]`: the reverse second-order block (computed by the
source but never stored). -/
def sliceFc2b (fci : Mat) : Mat := (fci.drop 4).take 3

/-- Slice `fc[i][7:, :]`: the nine third-order rows. -/
def sliceFc3 (fci : Mat) : Mat := fci.drop 7

/-- Reshape a `9 × 3` matrix into a `3 × 3 × 3` block (`reshape(3, 3, 3)`). -/
def reshape3 (m : Mat) : T3 := [m.take 3, (m.drop 3).take 3, (m.drop 6).take 3]

/-- Column `second` of the rotation atom map table
(`rot_map_syms[:, second_atom_num]`). -/
def fitRotAtomMap (rot_map_syms : List (List ℕ)) (second : ℕ) : List ℕ :=
  rot_map_syms.map (fun row => row.getD second 0)

/-- The `_solve` call of one second-atom iteration of `_fit`, with the
displacement and force matrices of every dataset direction built first. -/
def fitFcAt (simTrans : Mat → Mat) (pinv : Mat → Mat) (numAtom : ℕ)
    (site_symmetry : List Mat) (rot_map_syms : List (List ℕ))
    (disp_pairs : List (List (List (Vec × Vec))))
    (sets_of_forces : List (List (Option (List Mat)))) (second : ℕ) :
    Option (List Mat) :=
  solve numAtom pinv
    (disp_pairs.map (fun dp =>
      createDisplacementMatrix simTrans dp site_symmetry
        (fitRotAtomMap rot_map_syms second)))
    (sets_of_forces.map (fun sf =>
      createForceMatrix simTrans numAtom sf site_symmetry
        (fitRotAtomMap rot_map_syms second) rot_map_syms))

/-- Second-atom loop of `_fit`: accumulate the forward fc2 slices into the
first-atom fc2 slice and assign the reshaped fc3 slices into the
`(first, second)` rows of fc3. -/
def fitLoop (simTrans : Mat → Mat) (pinv : Mat → Mat) (numAtom : ℕ)
    (site_symmetry : List Mat) (rot_map_syms : List (List ℕ))
    (disp_pairs : List (List (List (Vec × Vec))))
    (sets_of_forces : List (List (Option (List Mat)))) :
    List ℕ → List Mat × List (List T3) → Option (List Mat × List (List T3))
  | [], st => some st
  | second :: rest, st =>
    match fitFcAt simTrans pinv numAtom site_symmetry rot_map_syms
        disp_pairs sets_of_forces second with
    | none => none
    | some fc =>
        fitLoop simTrans pinv numAtom site_symmetry rot_map_syms
          disp_pairs sets_of_forces rest
          (addNN st.1 (fc.map sliceFc2),
           st.2.set second (fc.map (fun fci => reshape3 (sliceFc3 fci))))

/-- Embedding of `_fit` for one first atom: run the second-atom loop starting
from the current fc2/fc3 slices of that first atom, then divide the fc2 slice
by the number of atoms. -/
def fitFirstAtom (simTrans : Mat → Mat) (pinv : Mat → Mat) (numAtom : ℕ)
    (site_symmetry : List Mat) (rot_map_syms : List (List ℕ))
    (disp_pairs : List (List (List (Vec × Vec))))
    (sets_of_forces : List (List (Option (List Mat))))
    (fc2_first : List Mat) (fc3_first : List (List T3)) :
    Option (List Mat × List (List T3)) :=
  (fitLoop simTrans pinv numAtom site_symmetry rot_map_syms disp_pairs
      sets_of_forces (List.range numAtom) (fc2_first, fc3_first)).map
    (fun st => (divBlocks numAtom st.1, st.2))

/-! ## Embedding of `FC4Fit._calculate` (fitting stage, before `distribute_fc4`) -/

/-- The fourth-order tensor, `N × N × N × N × 3 × 3 × 3 × 3`. -/
abbrev FC4 := List (List (List (List (List (List (List (List ℚ)))))))

/-- The three force-constant tensors owned by `FC4Fit`. -/
structure FCState where
  fc2 : List (List Mat)
  fc3 : List (List (List T3))
  fc4 : FC4
deriving DecidableEq

/-- All-zero fc4 tensor, as allocated by `FC4Fit.__init__`. -/
def zerosFC4 (n : ℕ) : FC4 :=
  List.replicate n (List.replicate n (List.replicate n (List.replicate n
    (List.replicate 3 (List.replicate 3 (List.replicate 3
      (List.replicate 3 (0 : ℚ))))))))

/-- The zero-initialised tensors allocated by `FC4Fit.__init__`. -/
def initState (n : ℕ) : FCState :=
  { fc2 := List.replicate n (List.replicate n (zerosMat 3 3)),
    fc3 := List.replicate n (List.replicate n (List.replicate n
      (List.replicate 3 (zerosMat 3 3)))),
    fc4 := zerosFC4 n }

/-- Collect and distribute the displacement/force data of every dataset record
for one first atom (the inner loop of `_calculate`). -/
def collectAll (simTrans : Mat → Mat) (numAtom : ℕ) (sy : SymInfo) :
    List FirstAtomRecord →
    Except String (List (List (List (Vec × Vec)) × List (Option (List Mat))))
  | [] => .ok []
  | r :: rest =>
    match collectDispPairsAndForces simTrans numAtom sy r with
    | .error e => .error e
    | .ok pr =>
      match collectAll simTrans numAtom sy rest with
      | .error e => .error e
      | .ok prs => .ok (pr :: prs)

/-- One first-atom iteration of `_calculate`: gather the per-direction data of
the records whose `number` matches, fit, and write the fitted slices back into
the fc2/fc3 tensors.  The fc4 tensor is carried along unchanged, exactly as in
the source, where `_fit` only assigns to `self._fc2` and `self._fc3`. -/
def calcStep (simTrans : Mat → Mat) (pinv : Mat → Mat) (numAtom : ℕ)
    (sy : SymInfo) (dataset : List FirstAtomRecord) (st : FCState)
    (firstAtom : ℕ) : Except String FCState :=
  match collectAll simTrans numAtom sy
      (dataset.filter (fun r => r.number == firstAtom)) with
  | .error e => .error e
  | .ok prs =>
    match fitFirstAtom simTrans pinv numAtom (sy.siteSym firstAtom)
        (sy.rotMapSyms firstAtom) (prs.map (fun p => p.1)) (prs.map (fun p => p.2))
        (st.fc2.getD firstAtom []) (st.fc3.getD firstAtom []) with
    | none => .error "numpy.linalg error"
    | some r =>
        .ok { st with fc2 := st.fc2.set firstAtom r.1,
                      fc3 := st.fc3.set firstAtom r.2 }

/-- Loop of `_calculate` over the unique first atoms appearing in the
dataset. -/
def calcLoop (simTrans : Mat → Mat) (pinv : Mat → Mat) (numAtom : ℕ)
    (sy : SymInfo) (dataset : List FirstAtomRecord) :
    List ℕ → FCState → Except String FCState
  | [], st => .ok st
  | fa :: rest, st =>
    match calcStep simTrans pinv numAtom sy dataset st fa with
    | .error e => .error e
    | .ok st' => calcLoop simTrans pinv numAtom sy dataset rest st'

/-- Embedding of `_calculate` up to (and excluding) the `distribute_fc4`
call: fit every unique first atom of the dataset in `np.unique` order. -/
def calculateFitStage (simTrans : Mat → Mat) (pinv : Mat → Mat) (numAtom : ℕ)
    (sy : SymInfo) (dataset : List FirstAtomRecord) (st : FCState) :
    Except String FCState :=
  calcLoop simTrans pinv numAtom sy dataset
    (npUnique (dataset.map (fun r => r.number))) st

/-- Decide whether any entry of an fc4 tensor is nonzero. -/
def fc4HasNonzero (t : FC4) : Bool :=
  t.any (fun a => a.any (fun b => b.any (fun c => c.any (fun d =>
    d.any (fun e => e.any (fun f => f.any (fun g =>
      g.any (fun x => decide (x ≠ 0)))))))))

/-! ## Embedding of `phonopy/interface/symfc.py` -/

/-- Embedding of `run_symfc`.  `symfc_importable` models whether
`from symfc import Symfc` succeeds; `symfcCalc` models the external
`Symfc(...).run(orders=[2], is_compact_fc=...)` computation;
`p2s_match` models the `symfc.p2s_map == primitive.p2s_map` comparison.
The import is attempted first: when it fails, the function raises
`ImportError("Symfc python module was not found.")` before printing any log
line or computing anything. -/
def run_symfc (symfc_importable : Bool) (log_level : ℕ)
    (symfcCalc : Bool → Mat) (p2s_match : Bool) (is_compact_fc : Bool) :
    Except String (Mat × List String) :=
  if symfc_importable = false then
    .error "Symfc python module was not found."
  else
    let startLog := if log_level ≠ 0 then
      ["-------------------------------- Symfc start -------------------------------",
       "Symfc is a non-trivial force constants calculator. Please cite the paper:",
       "A. Seko and A. Togo, arXiv:2403.03588.",
       "Symfc is developed at https://github.com/symfc/symfc."] else []
    let fc := symfcCalc is_compact_fc
    let endLog := if log_level ≠ 0 then
      ["--------------------------------- Symfc end --------------------------------"]
      else []
    if is_compact_fc ∧ p2s_match = false then
      .error "p2s_map of symfc and primitive do not match."
    else
      .ok (fc, startLog ++ endLog)

/-- Numpy fancy indexing `fc2[atom_list]`. -/
def fcIndex (fc2 : Mat) (atom_list : List ℕ) : Mat :=
  atom_list.map (fun a => fc2.getD a [])

/-- Embedding of `get_fc2`: compute `is_compact_fc`, call `run_symfc`, and
slice the result by `atom_list` when a non-compact selection is requested. -/
def get_fc2 (symfc_importable : Bool) (log_level : ℕ)
    (symfcCalc : Bool → Mat) (p2s_match : Bool)
    (p2s_map : List ℕ) (atom_list : Option (List ℕ)) :
    Except String (Mat × List String) :=
  let is_compact_fc := atom_list == some p2s_map
  match run_symfc symfc_importable log_level symfcCalc p2s_match is_compact_fc with
  | .error e => .error e
  | .ok (fc2, logs) =>
    match atom_list with
    | none => .ok (fc2, logs)
    | some l =>
        if is_compact_fc then .ok (fc2, logs) else .ok (fcIndex fc2 l, logs)

/-- Closed form of the coefficient matrices produced by one second-atom
iteration of `_fit`: for each target atom `i`, minus the shared pseudo-inverse
of the stacked displacement matrix times the stacked force matrix of `i`. -/
def fitFcVal (simTrans : Mat → Mat) (pinv : Mat → Mat) (numAtom : ℕ)
    (site_symmetry : List Mat) (rot_map_syms : List (List ℕ))
    (disp_pairs : List (List (List (Vec × Vec))))
    (sets_of_forces : List (List (Option (List Mat)))) (second : ℕ) :
    List Mat :=
  (List.range numAtom).map (fun i =>
    matNeg (matMul
      (pinv ((disp_pairs.map (fun dp =>
        createDisplacementMatrix simTrans dp site_symmetry
          (fitRotAtomMap rot_map_syms second))).flatten))
      (((sets_of_forces.map (fun sf =>
        createForceMatrix simTrans numAtom sf site_symmetry
          (fitRotAtomMap rot_map_syms second) rot_map_syms)).map
            (fun f => f.getD i [])).flatten)))

/-! # Theorems -/
-- Basic facts about the primitives.

theorem npUnique_mem (l : List ℕ) (a : ℕ) : a ∈ npUnique l ↔ a ∈ l := by
  unfold npUnique
  rw [List.mem_dedup, (List.perm_insertionSort (· ≤ ·) l).mem_iff]

theorem npUnique_nil : npUnique [] = [] := by decide

theorem length_outerFlat (u v : Vec) : (outerFlat u v).length = u.length * v.length := by
  induction u with
  | nil => simp [outerFlat]
  | cons x xs ih =>
      simp only [outerFlat, List.flatMap_cons, List.length_append, List.length_map,
        List.length_cons] at *
      rw [ih]; ring

theorem length_matVec (m : Mat) (v : Vec) : (matVec m v).length = m.length := by
  simp [matVec]

theorem getD_map_range {α : Type} (f : ℕ → α) (n k : ℕ) (h : k < n) (d : α) :
    ((List.range n).map f).getD k d = f k := by
  rw [List.getD_eq_getElem?_getD, List.getElem?_map]
  simp [List.getElem?_range, h]


theorem stackOpt_cons_aux (t : List Mat) : ∀ a : Mat,
    t.foldl
      (fun acc d => match acc with
        | none => some d
        | some x => some (x ++ d))
      (some a) = some (a ++ t.flatten) := by
  induction t with
  | nil => intro a; simp
  | cons b t ih =>
      intro a
      simp only [List.foldl_cons]
      rw [ih (a ++ b)]
      simp

theorem stackOpt_eq_flatten (ms : List Mat) (h : ms ≠ []) :
    stackOpt ms = some ms.flatten := by
  match ms, h with
  | a :: t, _ =>
      simp only [stackOpt, List.foldl_cons]
      rw [stackOpt_cons_aux t a]
      simp

theorem solveLoop_eq (inv_disps : Mat) (rot_forces : List (List Mat))
    (h : rot_forces ≠ []) : ∀ l : List ℕ,
    solveLoop inv_disps rot_forces l =
      some (l.map (fun i =>
        matNeg (matMul inv_disps
          ((rot_forces.map (fun f => f.getD i [])).flatten)))) := by
  intro l
  induction l with
  | nil => rfl
  | cons i rest ih =>
      have hne : rot_forces.map (fun f => f.getD i []) ≠ [] := by
        simpa using h
      simp only [solveLoop, stackOpt_eq_flatten _ hne, ih, List.map_cons]
      rfl

theorem solve_eq (numAtom : ℕ) (pinv : Mat → Mat) (rot_disps : List Mat)
    (rot_forces : List (List Mat)) (h1 : rot_disps ≠ []) (h2 : rot_forces ≠ []) :
    solve numAtom pinv rot_disps rot_forces =
      some ((List.range numAtom).map (fun i =>
        matNeg (matMul (pinv rot_disps.flatten)
          ((rot_forces.map (fun f => f.getD i [])).flatten)))) := by
  simp only [solve, stackOpt_eq_flatten _ h1, solveLoop_eq _ _ h2]

/-- C2: in every second-atom iteration, `_solve` computes the pseudo-inverse
of the vertically stacked displacement matrix exactly once, and the fitted
coefficient matrix of every target atom `i` equals minus that shared
pseudo-inverse times the vertically stacked force matrix of atom `i`. -/
theorem c2_solve_shared_pinv (numAtom : ℕ) (pinv : Mat → Mat)
    (rot_disps : List Mat) (rot_forces : List (List Mat))
    (h1 : rot_disps ≠ []) (h2 : rot_forces ≠ []) :
    ∃ P, P = pinv rot_disps.flatten ∧
      solve numAtom pinv rot_disps rot_forces =
        some ((List.range numAtom).map (fun i =>
          matNeg (matMul P
            ((rot_forces.map (fun f => f.getD i [])).flatten)))) :=
  ⟨pinv rot_disps.flatten, rfl, solve_eq numAtom pinv rot_disps rot_forces h1 h2⟩

/-- Witness for C2 at a concrete instance with one direction and one atom. -/
theorem c2_solve_shared_pinv_witness :
    ∃ P, P = transposeM (List.flatten [[[(1 : ℚ), 0]]]) ∧
      solve 1 transposeM [[[(1 : ℚ), 0]]] [[[[(2 : ℚ), 3]]]] =
        some ((List.range 1).map (fun i =>
          matNeg (matMul P
            ((([[[[(2 : ℚ), 3]]]].map (fun f => f.getD i [])).flatten))))) :=
  c2_solve_shared_pinv 1 transposeM [[[(1 : ℚ), 0]]] [[[[(2 : ℚ), 3]]]]
    (by decide) (by decide)

/-- C10: when the symfc package cannot be imported, `run_symfc` raises
`ImportError("Symfc python module was not found.")` before any logging or
computation, and `get_fc2` propagates exactly that error, producing no
partial result; this holds for every log level, external computation, and
atom list. -/
theorem c10_symfc_import_error (log_level : ℕ) (symfcCalc : Bool → Mat)
    (p2s_match : Bool) (p2s_map : List ℕ) (atom_list : Option (List ℕ))
    (is_compact_fc : Bool) :
    run_symfc false log_level symfcCalc p2s_match is_compact_fc
      = .error "Symfc python module was not found." ∧
    get_fc2 false log_level symfcCalc p2s_match p2s_map atom_list
      = .error "Symfc python module was not found." := by
  constructor
  · simp [run_symfc]
  · simp [get_fc2, run_symfc]

theorem find?_range'_spec (p : ℕ → Bool) : ∀ (n s i : ℕ),
    (List.range' s n).find? p = some i →
    p i = true ∧ s ≤ i ∧ i < s + n ∧ ∀ j, s ≤ j → j < i → p j = false := by
  intro n
  induction n with
  | zero => intro s i h; simp at h
  | succ m ih =>
      intro s i h
      rw [List.range'_succ] at h
      by_cases hp : p s
      · rw [List.find?_cons_of_pos _ hp] at h
        cases h
        exact ⟨hp, le_refl _, by omega, fun j h1 h2 => by omega⟩
      · rw [List.find?_cons_of_neg _ hp] at h
        obtain ⟨h1, h2, h3, h4⟩ := ih (s + 1) i h
        refine ⟨h1, by omega, by omega, fun j hj1 hj2 => ?_⟩
        rcases Nat.eq_or_lt_of_le hj1 with hj | hj
        · rw [← hj]; exact Bool.eq_false_iff.mpr hp
        · exact h4 j hj hj2

theorem find?_range_spec (p : ℕ → Bool) (n i : ℕ)
    (h : (List.range n).find? p = some i) :
    p i = true ∧ i < n ∧ ∀ j < i, p j = false := by
  rw [List.range_eq_range'] at h
  obtain ⟨h1, _, h3, h4⟩ := find?_range'_spec p n 0 i h
  exact ⟨h1, by omega, fun j hj => h4 j (Nat.zero_le j) hj⟩

/-- Characterisation of a successful `_copy_dataset_2nd` call: the chosen
operation index is the first whose image of the missing atom has direct data,
and the returned forces and displacements are the source atom's data rotated
by that operation. -/
theorem copyDataset2nd_ok_spec (simTrans : Mat → Mat) (second : ℕ)
    (sod : List (Option (List Vec))) (sof : List (Option (List Mat)))
    (unique : List ℕ) (reduced : List Mat) (rms : List (List ℕ))
    (fs : List Mat) (ds : List Vec)
    (hok : copyDataset2nd simTrans second sod sof unique reduced rms
      = .ok (fs, ds)) :
    ∃ i, i < reduced.length ∧
      (∀ j < i, ((rms.getD j []).getD second 0) ∉ unique) ∧
      ((rms.getD i []).getD second 0) ∈ unique ∧
      fs = ((sof.getD ((rms.getD i []).getD second 0) none).getD []).map
        (fun F => matMul ((rms.getD i []).map (fun j => F.getD j []))
          (transposeM (simTrans (reduced.getD i [])))) ∧
      ds = ((sod.getD ((rms.getD i []).getD second 0) none).getD []).map
        (fun d => matVec (simTrans (reduced.getD i [])) d) := by
  unfold copyDataset2nd at hok
  split at hok
  · exact absurd hok (by simp)
  · next i hfind =>
      obtain ⟨h1, h2, h3⟩ := find?_range_spec _ _ _ hfind
      simp only [decide_eq_true_eq] at h1
      simp only [Except.ok.injEq, Prod.mk.injEq] at hok
      refine ⟨i, h2, ?_, h1, hok.1.symm, hok.2.symm⟩
      intro j hj
      have := h3 j hj
      simpa using this

/-- C4: a completed second atom's data comes from the first reduced
site-symmetry operation (in iteration order) whose image of the missing atom
index has direct samples; the stored force arrays are the source atom's force
arrays permuted along the atom axis by that operation's rotation-atom-map row
and right-multiplied by the transpose of its Cartesian transform, and the
stored displacements are the source displacements left-multiplied by the
Cartesian transform. -/
theorem c4_completion_transform (simTrans : Mat → Mat) (second : ℕ)
    (sod : List (Option (List Vec))) (sof : List (Option (List Mat)))
    (unique : List ℕ) (reduced : List Mat) (rms : List (List ℕ))
    (fs : List Mat) (ds : List Vec)
    (hok : copyDataset2nd simTrans second sod sof unique reduced rms
      = .ok (fs, ds)) :
    ∃ i, i < reduced.length ∧
      (∀ j < i, ((rms.getD j []).getD second 0) ∉ unique) ∧
      ((rms.getD i []).getD second 0) ∈ unique ∧
      fs = ((sof.getD ((rms.getD i []).getD second 0) none).getD []).map
        (fun F => matMul ((rms.getD i []).map (fun j => F.getD j []))
          (transposeM (simTrans (reduced.getD i [])))) ∧
      ds = ((sod.getD ((rms.getD i []).getD second 0) none).getD []).map
        (fun d => matVec (simTrans (reduced.getD i [])) d) :=
  copyDataset2nd_ok_spec simTrans second sod sof unique reduced rms fs ds hok

/-- Witness for C4: atom 1 holds the direct data, atom 0 is completed from it
through the identity operation that swaps the two atoms. -/
theorem c4_completion_transform_witness :
    ∃ i, i < [idMat3].length ∧
      (∀ j < i, (([[1, 0]].getD j []).getD 0 0) ∉ [1]) ∧
      (([[1, 0]].getD i []).getD 0 0) ∈ [1] ∧
      [matMul [[(4 : ℚ), 5, 6], [(1 : ℚ), 2, 3]] (transposeM idMat3)] =
        (([none, some [[[(1 : ℚ), 2, 3], [4, 5, 6]]]].getD
            (([[1, 0]].getD i []).getD 0 0) none).getD []).map
          (fun F => matMul (([[1, 0]].getD i []).map (fun j => F.getD j []))
            (transposeM ((fun m => m) ([idMat3].getD i []))))  ∧
      [matVec idMat3 [(9 : ℚ), 8, 7]] =
        (([(none : Option (List Vec)), some [[(9 : ℚ), 8, 7]]].getD
            (([[1, 0]].getD i []).getD 0 0) none).getD []).map
          (fun d => matVec ((fun m => m) ([idMat3].getD i [])) d) :=
  c4_completion_transform (fun m => m) 0
    [none, some [[(9 : ℚ), 8, 7]]]
    [none, some [[[(1 : ℚ), 2, 3], [4, 5, 6]]]]
    [1] [idMat3] [[1, 0]]
    [matMul [[(4 : ℚ), 5, 6], [(1 : ℚ), 2, 3]] (transposeM idMat3)]
    [matVec idMat3 [(9 : ℚ), 8, 7]]
    (by decide)

/-- Counterexample for C5: two different missing second atoms (0 and 1, i.e.
two different offending atom pairs) make the completion abort with the very
same assertion message, the constant string of the source; the diagnostic
therefore cannot identify the offending atom pair. -/
theorem c5_counterexample :
    copyDataset2nd (fun m => m) 0 [none, none] [none, none] [] [idMat3] [[0, 0]]
      = .error "Something is wrong." ∧
    copyDataset2nd (fun m => m) 1 [none, none] [none, none] [] [idMat3] [[0, 0]]
      = .error "Something is wrong." := by decide

/-- C5 (amended): when no reduced site-symmetry operation maps the missing
second atom onto an atom with direct data, `_copy_dataset_2nd` aborts the run
fatally through its assertion, whose message is the fixed string
`"Something is wrong."` — the same for every offending atom pair, so the
diagnostic does not identify the pair. -/
theorem c5_assertion_fixed_message (simTrans : Mat → Mat) (second : ℕ)
    (sod : List (Option (List Vec))) (sof : List (Option (List Mat)))
    (unique : List ℕ) (reduced : List Mat) (rms : List (List ℕ))
    (h : ∀ i < reduced.length, ((rms.getD i []).getD second 0) ∉ unique) :
    copyDataset2nd simTrans second sod sof unique reduced rms
      = .error "Something is wrong." := by
  have hfind : (List.range reduced.length).find?
      (fun i =>
        decide (((rms.getD i []).getD second 0) ∈ unique)) = none := by
    rw [List.find?_eq_none]
    intro i hi
    simp only [List.mem_range] at hi
    simp only [decide_eq_true_eq]
    exact h i hi
  unfold copyDataset2nd
  rw [hfind]

/-- Witness for C5 at a concrete offending pair. -/
theorem c5_assertion_fixed_message_witness :
    copyDataset2nd (fun m => m) 2 [none] [none] [] [idMat3] [[0, 0, 0]]
      = .error "Something is wrong." :=
  c5_assertion_fixed_message (fun m => m) 2 [none] [none] [] [idMat3] [[0, 0, 0]]
    (by decide)

theorem collectPair_aux (k : ℕ) (recs : List SecondAtomRecord) :
    ∀ (a : List Vec) (b : List Mat),
    recs.foldl
      (fun acc r =>
        if r.number = k then (acc.1 ++ [r.displacement], acc.2 ++ [r.forces])
        else acc)
      (a, b)
      = (a ++ (recs.filter (fun r => r.number == k)).map
            (fun r => r.displacement),
         b ++ (recs.filter (fun r => r.number == k)).map (fun r => r.forces)) := by
  induction recs with
  | nil => intro a b; simp
  | cons r t ih =>
      intro a b
      simp only [List.foldl_cons, List.filter_cons]
      by_cases h : r.number = k
      · simp only [if_pos h, h, beq_self_eq_true, if_pos, List.map_cons]
        rw [ih]
        simp
      · have hb : (r.number == k) = false := by simpa using h
        simp only [if_neg h, hb, Bool.false_eq_true, if_neg, not_false_iff]
        exact ih a b

theorem collectPair_eq (k : ℕ) (recs : List SecondAtomRecord) :
    collectPair k recs
      = ((recs.filter (fun r => r.number == k)).map (fun r => r.displacement),
         (recs.filter (fun r => r.number == k)).map (fun r => r.forces)) := by
  unfold collectPair
  rw [collectPair_aux k recs [] []]
  simp

/-- C7: for every first-atom record, the grouping stage of the collector
produces two length-`N` sequences whose entry `k` is `none` exactly when the
record holds no sample for second atom `k`, and otherwise is the ordered list
of all sampled displacements (respectively force arrays) for the pair
`(first, k)`, duplicates retained in input order. -/
theorem c7_collector_grouping (numAtom : ℕ) (rec : FirstAtomRecord) (k : ℕ)
    (hk : k < numAtom) :
    (collectRaw numAtom rec).1.length = numAtom ∧
    (collectRaw numAtom rec).2.length = numAtom ∧
    ((collectRaw numAtom rec).1.getD k none = none ↔
      k ∉ rec.second_atoms.map (fun r => r.number)) ∧
    ((collectRaw numAtom rec).2.getD k none = none ↔
      k ∉ rec.second_atoms.map (fun r => r.number)) ∧
    (k ∈ rec.second_atoms.map (fun r => r.number) →
      (collectRaw numAtom rec).1.getD k none =
        some ((rec.second_atoms.filter (fun r => r.number == k)).map
          (fun r => r.displacement)) ∧
      (collectRaw numAtom rec).2.getD k none =
        some ((rec.second_atoms.filter (fun r => r.number == k)).map
          (fun r => r.forces))) := by
  have hmem : k ∈ npUnique (rec.second_atoms.map (fun r => r.number)) ↔
      k ∈ rec.second_atoms.map (fun r => r.number) :=
    npUnique_mem _ k
  unfold collectRaw
  refine ⟨by simp, by simp, ?_, ?_, ?_⟩
  · rw [getD_map_range _ _ _ hk]
    by_cases h : k ∈ npUnique (rec.second_atoms.map (fun r => r.number))
    · simp [h, hmem.mp h]
    · simp [h, hmem.not.mp h]
  · rw [getD_map_range _ _ _ hk]
    by_cases h : k ∈ npUnique (rec.second_atoms.map (fun r => r.number))
    · simp [h, hmem.mp h]
    · simp [h, hmem.not.mp h]
  · intro h
    rw [getD_map_range _ _ _ hk, getD_map_range _ _ _ hk]
    rw [if_pos (hmem.mpr h), if_pos (hmem.mpr h), collectPair_eq]
    exact ⟨rfl, rfl⟩

/-- Witness for C7: two samples for the same pair (0,1) are both retained in
order, and atom 0 has no entry. -/
theorem c7_collector_grouping_witness :
    (collectRaw 2 ⟨0, [1, 0, 0],
        [⟨1, [0, 1, 0], [[(1 : ℚ), 1, 1]]⟩, ⟨1, [0, 0, 1], [[(2 : ℚ), 2, 2]]⟩]⟩).1.length = 2 ∧
    (collectRaw 2 ⟨0, [1, 0, 0],
        [⟨1, [0, 1, 0], [[(1 : ℚ), 1, 1]]⟩, ⟨1, [0, 0, 1], [[(2 : ℚ), 2, 2]]⟩]⟩).2.length = 2 ∧
    ((collectRaw 2 ⟨0, [1, 0, 0],
        [⟨1, [0, 1, 0], [[(1 : ℚ), 1, 1]]⟩, ⟨1, [0, 0, 1], [[(2 : ℚ), 2, 2]]⟩]⟩).1.getD 1 none = none ↔
      1 ∉ ([⟨1, [0, 1, 0], [[(1 : ℚ), 1, 1]]⟩, ⟨1, [0, 0, 1], [[(2 : ℚ), 2, 2]]⟩] :
        List SecondAtomRecord).map (fun r => r.number)) ∧
    ((collectRaw 2 ⟨0, [1, 0, 0],
        [⟨1, [0, 1, 0], [[(1 : ℚ), 1, 1]]⟩, ⟨1, [0, 0, 1], [[(2 : ℚ), 2, 2]]⟩]⟩).2.getD 1 none = none ↔
      1 ∉ ([⟨1, [0, 1, 0], [[(1 : ℚ), 1, 1]]⟩, ⟨1, [0, 0, 1], [[(2 : ℚ), 2, 2]]⟩] :
        List SecondAtomRecord).map (fun r => r.number)) ∧
    (1 ∈ ([⟨1, [0, 1, 0], [[(1 : ℚ), 1, 1]]⟩, ⟨1, [0, 0, 1], [[(2 : ℚ), 2, 2]]⟩] :
        List SecondAtomRecord).map (fun r => r.number) →
      (collectRaw 2 ⟨0, [1, 0, 0],
          [⟨1, [0, 1, 0], [[(1 : ℚ), 1, 1]]⟩, ⟨1, [0, 0, 1], [[(2 : ℚ), 2, 2]]⟩]⟩).1.getD 1 none =
        some ((([⟨1, [0, 1, 0], [[(1 : ℚ), 1, 1]]⟩, ⟨1, [0, 0, 1], [[(2 : ℚ), 2, 2]]⟩] :
          List SecondAtomRecord).filter (fun r => r.number == 1)).map
            (fun r => r.displacement)) ∧
      (collectRaw 2 ⟨0, [1, 0, 0],
          [⟨1, [0, 1, 0], [[(1 : ℚ), 1, 1]]⟩, ⟨1, [0, 0, 1], [[(2 : ℚ), 2, 2]]⟩]⟩).2.getD 1 none =
        some ((([⟨1, [0, 1, 0], [[(1 : ℚ), 1, 1]]⟩, ⟨1, [0, 0, 1], [[(2 : ℚ), 2, 2]]⟩] :
          List SecondAtomRecord).filter (fun r => r.number == 1)).map
            (fun r => r.forces))) :=
  c7_collector_grouping 2
    ⟨0, [1, 0, 0], [⟨1, [0, 1, 0], [[(1 : ℚ), 1, 1]]⟩, ⟨1, [0, 0, 1], [[(2 : ℚ), 2, 2]]⟩]⟩
    1 (by decide)

theorem hstack1_map {α : Type} (f g h : α → Vec) : ∀ t : List α,
    hstack1 (t.map f) (t.map g) (t.map h)
      = t.map (fun x => (1 : ℚ) :: (f x ++ g x ++ h x)) := by
  intro t
  induction t with
  | nil => rfl
  | cons x t ih => simp only [List.map_cons, hstack1, ih]

theorem createDisplacementMatrix_eq (simTrans : Mat → Mat)
    (disp_pairs : List (List (Vec × Vec))) (site_symmetry : List Mat)
    (rot_atom_map : List ℕ) :
    createDisplacementMatrix simTrans disp_pairs site_symmetry rot_atom_map
      = (rot_atom_map.zip site_symmetry).flatMap (fun p =>
          (disp_pairs.getD p.1 []).map (fun uv =>
            (1 : ℚ) :: (matVec (simTrans p.2) uv.1 ++ matVec (simTrans p.2) uv.2 ++
              outerFlat (matVec (simTrans p.2) uv.1)
                (matVec (simTrans p.2) uv.2)))) := by
  unfold createDisplacementMatrix
  rw [hstack1_map]
  rw [List.map_flatMap]
  congr 1
  funext p
  rw [List.map_map]
  rfl

/-- C8: every row of the displacement design matrix is
`[1, rotated u1 (3), rotated u2 (3), flattened outer product (9)]` — sixteen
columns — and one row is emitted per (site-symmetry operation, sample at the
rotated second atom) combination, with no averaging. -/
theorem c8_displacement_matrix (simTrans : Mat → Mat)
    (disp_pairs : List (List (Vec × Vec))) (site_symmetry : List Mat)
    (rot_atom_map : List ℕ)
    (hS : ∀ s ∈ site_symmetry, (simTrans s).length = 3) :
    createDisplacementMatrix simTrans disp_pairs site_symmetry rot_atom_map
      = (rot_atom_map.zip site_symmetry).flatMap (fun p =>
          (disp_pairs.getD p.1 []).map (fun uv =>
            (1 : ℚ) :: (matVec (simTrans p.2) uv.1 ++ matVec (simTrans p.2) uv.2 ++
              outerFlat (matVec (simTrans p.2) uv.1)
                (matVec (simTrans p.2) uv.2)))) ∧
    ∀ row ∈ createDisplacementMatrix simTrans disp_pairs site_symmetry
        rot_atom_map, row.length = 16 := by
  refine ⟨createDisplacementMatrix_eq simTrans disp_pairs site_symmetry
    rot_atom_map, ?_⟩
  intro row hrow
  rw [createDisplacementMatrix_eq] at hrow
  rw [List.mem_flatMap] at hrow
  obtain ⟨p, hp, hrow⟩ := hrow
  rw [List.mem_map] at hrow
  obtain ⟨uv, _, hrow⟩ := hrow
  have hs : (simTrans p.2).length = 3 := hS p.2 (List.of_mem_zip hp).2
  rw [← hrow]
  simp only [List.length_cons, List.length_append, length_matVec, hs,
    length_outerFlat]

/-- Witness for C8 with the identity operation and one sample. -/
theorem c8_displacement_matrix_witness :
    createDisplacementMatrix (fun m => m) [[([(1 : ℚ), 0, 0], [(0 : ℚ), 1, 0])]]
        [idMat3] [0]
      = ([(0, idMat3)] :
          List (ℕ × Mat)).flatMap (fun p =>
          (([[([(1 : ℚ), 0, 0], [(0 : ℚ), 1, 0])]].getD p.1 []).map (fun uv =>
            (1 : ℚ) :: (matVec ((fun m => m) p.2) uv.1 ++
              matVec ((fun m => m) p.2) uv.2 ++
              outerFlat (matVec ((fun m => m) p.2) uv.1)
                (matVec ((fun m => m) p.2) uv.2))))) ∧
    ∀ row ∈ createDisplacementMatrix (fun m => m)
        [[([(1 : ℚ), 0, 0], [(0 : ℚ), 1, 0])]] [idMat3] [0], row.length = 16 :=
  c8_displacement_matrix (fun m => m) [[([(1 : ℚ), 0, 0], [(0 : ℚ), 1, 0])]]
    [idMat3] [0] (by decide)

theorem copyDataset2nd_empty_unique (simTrans : Mat → Mat) (k : ℕ)
    (sod : List (Option (List Vec))) (sof : List (Option (List Mat)))
    (reduced : List Mat) (rms : List (List ℕ)) :
    copyDataset2nd simTrans k sod sof [] reduced rms
      = .error "Something is wrong." := by
  have hfind : (List.range reduced.length).find?
      (fun i => decide (((rms.getD i []).getD k 0) ∈ ([] : List ℕ))) = none := by
    rw [List.find?_eq_none]
    intro i _
    simp
  unfold copyDataset2nd
  rw [hfind]

theorem distLoop_first_missing_error (simTrans : Mat → Mat) (disp1 : Vec)
    (sod : List (Option (List Vec))) (reduced : List Mat) (rms : List (List ℕ))
    (rest : List ℕ) (k : ℕ)
    (st : List (List (Vec × Vec)) × List (Option (List Mat)))
    (hmiss : sod.getD k none = none) :
    distLoop simTrans disp1 sod [] reduced rms (k :: rest) st
      = .error "Something is wrong." := by
  simp only [distLoop, hmiss]
  rw [copyDataset2nd_empty_unique]

/-- Counterexample for C6: a first-atom record with zero second-atom samples
but full (identity-containing) site symmetry drives Symmetry Completion into
its assertion branch: the run aborts instead of completing. -/
theorem c6_counterexample :
    collectDispPairsAndForces (fun m => m) 1
      ⟨fun _ => [idMat3], fun _ => [[0]], fun _ _ => [idMat3], fun _ _ => [[0]]⟩
      ⟨0, [1, 0, 0], []⟩
      = .error "Something is wrong." := by decide

/-- C6 (amended): a dataset record with zero second-atom samples leaves every
second atom without direct data and the set of directly sampled atoms empty,
so Symmetry Completion reaches the no-source assertion and the whole
collect-and-distribute step aborts with `"Something is wrong."`; no fc2/fc3
contribution is computed for that first atom. -/
theorem c6_empty_record_asserts (simTrans : Mat → Mat) (numAtom : ℕ)
    (sy : SymInfo) (rec : FirstAtomRecord)
    (hempty : rec.second_atoms = []) (hn : 0 < numAtom) :
    collectDispPairsAndForces simTrans numAtom sy rec
      = .error "Something is wrong." := by
  obtain ⟨m, rfl⟩ : ∃ m, numAtom = m + 1 := ⟨numAtom - 1, by omega⟩
  have hsod : (collectRaw (m + 1) rec).1.getD 0 none = none := by
    unfold collectRaw
    rw [getD_map_range _ _ _ (Nat.succ_pos m), hempty]
    simp [npUnique_nil]
  unfold collectDispPairsAndForces
  simp only [hempty, List.map_nil, npUnique_nil]
  unfold distributeDF
  rw [List.range_succ_eq_map]
  exact distLoop_first_missing_error simTrans rec.displacement _ _ _ _ 0 _ hsod

/-- Witness for C6 (amended) at a two-atom instance. -/
theorem c6_empty_record_asserts_witness :
    collectDispPairsAndForces (fun m => m) 2
      ⟨fun _ => [idMat3], fun _ => [[0, 1]], fun _ _ => [idMat3], fun _ _ => [[0, 1]]⟩
      ⟨1, [0, 1, 0], []⟩
      = .error "Something is wrong." :=
  c6_empty_record_asserts (fun m => m) 2
    ⟨fun _ => [idMat3], fun _ => [[0, 1]], fun _ _ => [idMat3], fun _ _ => [[0, 1]]⟩
    ⟨1, [0, 1, 0], []⟩ rfl (by decide)

theorem getD_set_ne {α : Type} (l : List α) (i j : ℕ) (v d : α) (h : i ≠ j) :
    (l.set i v).getD j d = l.getD j d := by
  rw [List.getD_eq_getElem?_getD, List.getD_eq_getElem?_getD,
    List.getElem?_set_ne h]

theorem getD_set_self {α : Type} (l : List α) (i : ℕ) (v d : α)
    (h : i < l.length) : (l.set i v).getD i d = v := by
  rw [List.getD_eq_getElem?_getD, List.getElem?_set_self h]
  rfl

theorem distLoop_untouched (simTrans : Mat → Mat) (disp1 : Vec)
    (sod : List (Option (List Vec))) (unique : List ℕ) (reduced : List Mat)
    (rms : List (List ℕ)) : ∀ (l : List ℕ)
    (st r : List (List (Vec × Vec)) × List (Option (List Mat))),
    distLoop simTrans disp1 sod unique reduced rms l st = .ok r →
    ∀ j, j ∉ l → r.2.getD j none = st.2.getD j none := by
  intro l
  induction l with
  | nil =>
      intro st r h j _
      rw [show st = r from Except.ok.inj h]
  | cons k rest ih =>
      intro st r h j hj
      have hjk : j ≠ k := fun he => hj (he ▸ List.mem_cons_self k rest)
      have hjr : j ∉ rest := fun he => hj (List.mem_cons_of_mem k he)
      unfold distLoop at h
      split at h
      · exact ih _ r h j hjr
      · split at h
        · exact absurd h (by simp)
        · next fs ds2 _ =>
            have := ih _ r h j hjr
            rw [this]
            exact getD_set_ne st.2 k j (some fs) none (fun he => hjk he.symm)

theorem copyDataset2nd_state_indep (simTrans : Mat → Mat) (k : ℕ)
    (sod : List (Option (List Vec))) (sof sof2 : List (Option (List Mat)))
    (unique : List ℕ) (reduced : List Mat) (rms : List (List ℕ))
    (hagree : ∀ j ∈ unique, sof2.getD j none = sof.getD j none) :
    copyDataset2nd simTrans k sod sof2 unique reduced rms
      = copyDataset2nd simTrans k sod sof unique reduced rms := by
  unfold copyDataset2nd
  cases hfind : (List.range reduced.length).find?
      (fun i => decide (((rms.getD i []).getD k 0) ∈ unique)) with
  | none => rfl
  | some i =>
      have hmem : ((rms.getD i []).getD k 0) ∈ unique := by
        have := List.find?_some hfind
        simpa using this
      simp only [hagree _ hmem]

theorem distLoop_spec (simTrans : Mat → Mat) (disp1 : Vec)
    (sod : List (Option (List Vec))) (sof : List (Option (List Mat)))
    (unique : List ℕ) (reduced : List Mat) (rms : List (List ℕ))
    (hdir : ∀ j ∈ unique, sod.getD j none ≠ none) :
    ∀ (l : List ℕ) (st : List (List (Vec × Vec)) × List (Option (List Mat))),
    l.Nodup →
    (∀ k2 ∈ l, k2 < st.2.length) →
    (∀ j ∈ unique, st.2.getD j none = sof.getD j none) →
    ∀ r, distLoop simTrans disp1 sod unique reduced rms l st = .ok r →
    ∀ k ∈ l, sod.getD k none = none →
      ∃ fs ds, copyDataset2nd simTrans k sod sof unique reduced rms
          = .ok (fs, ds) ∧
        r.2.getD k none = some fs := by
  intro l
  induction l with
  | nil =>
      intro st _ _ _ r _ k hk
      cases hk
  | cons k0 rest ih =>
      intro st hnd hlen hagree r hrun k hk hmiss
      unfold distLoop at hrun
      split at hrun
      · next ds hs =>
          rcases List.mem_cons.mp hk with rfl | hk'
          · rw [hs] at hmiss
            cases hmiss
          · exact ih (st.1 ++ [ds.map (fun d => (disp1, d))], st.2)
              (List.nodup_cons.mp hnd).2
              (fun k2 hk2 => hlen k2 (List.mem_cons_of_mem _ hk2))
              hagree r hrun k hk' hmiss
      · next hs =>
          split at hrun
          · exact absurd hrun (by simp)
          · next fs ds2 hcopy =>
              have hk0nu : k0 ∉ unique := fun hmem => (hdir k0 hmem) hs
              have hcopy2 : copyDataset2nd simTrans k0 sod sof unique reduced
                  rms = .ok (fs, ds2) := by
                rw [← copyDataset2nd_state_indep simTrans k0 sod sof st.2
                  unique reduced rms hagree]
                exact hcopy
              have hagree2 : ∀ j ∈ unique,
                  (st.2.set k0 (some fs)).getD j none = sof.getD j none := by
                intro j hj
                rw [getD_set_ne st.2 k0 j (some fs) none
                  (fun he => hk0nu (he ▸ hj))]
                exact hagree j hj
              rcases List.mem_cons.mp hk with rfl | hk'
              · refine ⟨fs, ds2, hcopy2, ?_⟩
                have huntouched := distLoop_untouched simTrans disp1 sod unique
                  reduced rms rest
                  (st.1 ++ [ds2.map (fun d => (disp1, d))],
                    st.2.set k (some fs)) r hrun k (List.nodup_cons.mp hnd).1
                rw [huntouched]
                exact getD_set_self st.2 k (some fs) none
                  (hlen k (List.mem_cons_self _ _))
              · exact ih (st.1 ++ [ds2.map (fun d => (disp1, d))],
                    st.2.set k0 (some fs))
                  (List.nodup_cons.mp hnd).2
                  (fun k2 hk2 => by
                    rw [List.length_set]
                    exact hlen k2 (List.mem_cons_of_mem _ hk2))
                  hagree2 r hrun k hk' hmiss

/-- C9: Symmetry Completion only ever uses directly measured pairs as
sources.  Whenever the distribute loop completes a missing second atom `k`,
the completed forces equal the result of `_copy_dataset_2nd` evaluated on the
ORIGINAL `sets_of_forces` (so a completed pair is never derived from another
completed, already-rotated pair, regardless of fill order), and the chosen
source index — the image of `k` under the selected operation — lies in
`unique_second_atom_nums` and has direct data. -/
theorem c9_completion_sources_direct (simTrans : Mat → Mat) (numAtom : ℕ)
    (disp1 : Vec) (sod : List (Option (List Vec)))
    (sof : List (Option (List Mat))) (unique : List ℕ) (reduced : List Mat)
    (rms : List (List ℕ)) (dp : List (List (Vec × Vec)))
    (sof2 : List (Option (List Mat)))
    (hlen : numAtom ≤ sof.length)
    (hdir : ∀ j ∈ unique, sod.getD j none ≠ none)
    (hrun : distributeDF simTrans numAtom disp1 sod sof unique reduced rms
      = .ok (dp, sof2))
    (k : ℕ) (hk : k < numAtom) (hmiss : sod.getD k none = none) :
    ∃ fs ds i,
      copyDataset2nd simTrans k sod sof unique reduced rms = .ok (fs, ds) ∧
      sof2.getD k none = some fs ∧
      i < reduced.length ∧
      ((rms.getD i []).getD k 0) ∈ unique ∧
      sod.getD ((rms.getD i []).getD k 0) none ≠ none := by
  obtain ⟨fs, ds, hcopy, hval⟩ :=
    distLoop_spec simTrans disp1 sod sof unique reduced rms hdir
      (List.range numAtom) ([], sof) (List.nodup_range numAtom)
      (fun k2 hk2 => lt_of_lt_of_le (List.mem_range.mp hk2) hlen)
      (fun j _ => rfl) (dp, sof2) hrun k (List.mem_range.mpr hk) hmiss
  obtain ⟨i, hi, _, hmem, _, _⟩ :=
    copyDataset2nd_ok_spec simTrans k sod sof unique reduced rms fs ds hcopy
  exact ⟨fs, ds, i, hcopy, hval, hi, hmem, hdir _ hmem⟩

/-- Witness for C9: atom 0 is sampled directly, atom 1 is completed from
atom 0 through an operation swapping the two atoms. -/
theorem c9_completion_sources_direct_witness :
    ∃ fs ds i,
      copyDataset2nd (fun m => m) 1 [some [[(0 : ℚ), 0, 1]], none]
          [some [[[(1 : ℚ), 2, 3], [4, 5, 6]]], none] [0] [idMat3] [[1, 0]]
        = .ok (fs, ds) ∧
      ([some [[[(1 : ℚ), 2, 3], [4, 5, 6]]],
        some [[[(4 : ℚ), 5, 6], [1, 2, 3]]]].getD 1 none) = some fs ∧
      i < [idMat3].length ∧
      (([[1, 0]].getD i []).getD 1 0) ∈ [0] ∧
      ([some [[(0 : ℚ), 0, 1]], none].getD
        (([[1, 0]].getD i []).getD 1 0) none) ≠ none :=
  c9_completion_sources_direct (fun m => m) 2 [(1 : ℚ), 0, 0]
    [some [[(0 : ℚ), 0, 1]], none]
    [some [[[(1 : ℚ), 2, 3], [4, 5, 6]]], none] [0] [idMat3] [[1, 0]]
    [[([(1 : ℚ), 0, 0], [(0 : ℚ), 0, 1])], [([(1 : ℚ), 0, 0], [(0 : ℚ), 0, 1])]]
    [some [[[(1 : ℚ), 2, 3], [4, 5, 6]]], some [[[(4 : ℚ), 5, 6], [1, 2, 3]]]]
    (by decide) (by decide) (by decide) 1 (by decide) (by decide)

theorem fitFcAt_eq (simTrans pinv : Mat → Mat) (numAtom : ℕ)
    (ss : List Mat) (rms : List (List ℕ))
    (dp : List (List (List (Vec × Vec))))
    (sof : List (List (Option (List Mat)))) (second : ℕ)
    (hdp : dp ≠ []) (hsof : sof ≠ []) :
    fitFcAt simTrans pinv numAtom ss rms dp sof second
      = some (fitFcVal simTrans pinv numAtom ss rms dp sof second) := by
  unfold fitFcAt fitFcVal
  rw [solve_eq]
  · simpa using hdp
  · simpa using hsof

theorem set_append_left_length {α : Type} :
    ∀ (A : List α) (x : α) (B : List α) (v : α),
    (A ++ x :: B).set A.length v = A ++ v :: B := by
  intro A
  induction A with
  | nil => intro x B v; rfl
  | cons a t ih =>
      intro x B v
      simp only [List.cons_append, List.length_cons, List.set_cons_succ]
      rw [ih]

theorem foldl_set_prefix {α : Type} (g : ℕ → α) :
    ∀ (k : ℕ) (l0 : List α), k ≤ l0.length →
    (List.range k).foldl (fun acc s => acc.set s (g s)) l0
      = (List.range k).map g ++ l0.drop k := by
  intro k
  induction k with
  | zero => intro l0 _; simp
  | succ m ih =>
      intro l0 hm
      rw [List.range_succ, List.foldl_append, ih l0 (by omega)]
      simp only [List.foldl_cons, List.foldl_nil]
      have hdrop : l0.drop m = l0[m] :: l0.drop (m + 1) :=
        List.drop_eq_getElem_cons (by omega)
      rw [hdrop]
      have hlen : ((List.range m).map g).length = m := by simp
      have hstep := set_append_left_length ((List.range m).map g) l0[m]
        (l0.drop (m + 1)) (g m)
      rw [hlen] at hstep
      rw [hstep]
      simp

theorem fitLoop_spec (simTrans pinv : Mat → Mat) (numAtom : ℕ)
    (ss : List Mat) (rms : List (List ℕ))
    (dp : List (List (List (Vec × Vec))))
    (sof : List (List (Option (List Mat))))
    (hdp : dp ≠ []) (hsof : sof ≠ []) :
    ∀ (l : List ℕ) (st : List Mat × List (List T3)),
    fitLoop simTrans pinv numAtom ss rms dp sof l st
      = some
        (l.foldl (fun acc s => addNN acc
          ((fitFcVal simTrans pinv numAtom ss rms dp sof s).map sliceFc2)) st.1,
         l.foldl (fun acc s => acc.set s
          ((fitFcVal simTrans pinv numAtom ss rms dp sof s).map
            (fun fci => reshape3 (sliceFc3 fci)))) st.2) := by
  intro l
  induction l with
  | nil => intro st; rfl
  | cons s rest ih =>
      intro st
      simp only [fitLoop,
        fitFcAt_eq simTrans pinv numAtom ss rms dp sof s hdp hsof]
      rw [ih]
      rfl

/-- C3: `_fit` discards column 0 of every 16-wide coefficient matrix,
accumulates the forward fc2 slice (rows 1–3) over all `N` second-atom
iterations and divides the accumulated first-atom fc2 slice by `N` at the
end, and stores the 9-wide fc3 slice (rows 7–15), reshaped to `3 × 3 × 3`,
by assignment (entry `second` of the fc3 slice is overwritten, not
accumulated) with no normalisation. -/
theorem c3_fit_slicing (simTrans pinv : Mat → Mat) (numAtom : ℕ)
    (ss : List Mat) (rms : List (List ℕ))
    (dp : List (List (List (Vec × Vec))))
    (sof : List (List (Option (List Mat))))
    (fc2i : List Mat) (fc3i : List (List T3))
    (hdp : dp ≠ []) (hsof : sof ≠ []) (hlen : fc3i.length = numAtom) :
    fitFirstAtom simTrans pinv numAtom ss rms dp sof fc2i fc3i
      = some
        (divBlocks numAtom
          ((List.range numAtom).foldl (fun acc s => addNN acc
            ((fitFcVal simTrans pinv numAtom ss rms dp sof s).map sliceFc2))
            fc2i),
         (List.range numAtom).map (fun s =>
           (fitFcVal simTrans pinv numAtom ss rms dp sof s).map
             (fun fci => reshape3 (sliceFc3 fci)))) := by
  unfold fitFirstAtom
  rw [fitLoop_spec simTrans pinv numAtom ss rms dp sof hdp hsof
    (List.range numAtom) (fc2i, fc3i)]
  have hset := foldl_set_prefix
    (fun s => (fitFcVal simTrans pinv numAtom ss rms dp sof s).map
      (fun fci => reshape3 (sliceFc3 fci))) numAtom fc3i (le_of_eq hlen.symm)
  simp only [Option.map_some]
  rw [hset]
  have : fc3i.drop numAtom = [] := by
    rw [← hlen]
    exact List.drop_length fc3i
  rw [this, List.append_nil]
  rfl

/-- Witness for C3 at a one-atom instance with one direction and one
sample. -/
theorem c3_fit_slicing_witness :
    fitFirstAtom (fun m => m) transposeM 1 [idMat3] [[0]]
        [[[([(1 : ℚ), 0, 0], [(0 : ℚ), 1, 0])]]] [[some [[[(2 : ℚ), 3, 4]]]]]
        [zerosMat 3 3] [[List.replicate 3 (zerosMat 3 3)]]
      = some
        (divBlocks 1
          ((List.range 1).foldl (fun acc s => addNN acc
            ((fitFcVal (fun m => m) transposeM 1 [idMat3] [[0]]
              [[[([(1 : ℚ), 0, 0], [(0 : ℚ), 1, 0])]]]
              [[some [[[(2 : ℚ), 3, 4]]]]] s).map sliceFc2))
            [zerosMat 3 3]),
         (List.range 1).map (fun s =>
           (fitFcVal (fun m => m) transposeM 1 [idMat3] [[0]]
             [[[([(1 : ℚ), 0, 0], [(0 : ℚ), 1, 0])]]]
             [[some [[[(2 : ℚ), 3, 4]]]]] s).map
               (fun fci => reshape3 (sliceFc3 fci)))) :=
  c3_fit_slicing (fun m => m) transposeM 1 [idMat3] [[0]]
    [[[([(1 : ℚ), 0, 0], [(0 : ℚ), 1, 0])]]] [[some [[[(2 : ℚ), 3, 4]]]]]
    [zerosMat 3 3] [[List.replicate 3 (zerosMat 3 3)]]
    (by decide) (by decide) (by decide)

theorem calcStep_fc4_unchanged (simTrans pinv : Mat → Mat) (numAtom : ℕ)
    (sy : SymInfo) (dataset : List FirstAtomRecord) (st : FCState)
    (firstAtom : ℕ) (st2 : FCState)
    (h : calcStep simTrans pinv numAtom sy dataset st firstAtom = .ok st2) :
    st2.fc4 = st.fc4 := by
  unfold calcStep at h
  split at h
  · exact absurd h (by simp)
  · split at h
    · exact absurd h (by simp)
    · rw [← Except.ok.inj h]

theorem calcLoop_fc4_unchanged (simTrans pinv : Mat → Mat) (numAtom : ℕ)
    (sy : SymInfo) (dataset : List FirstAtomRecord) :
    ∀ (l : List ℕ) (st st2 : FCState),
    calcLoop simTrans pinv numAtom sy dataset l st = .ok st2 →
    st2.fc4 = st.fc4 := by
  intro l
  induction l with
  | nil =>
      intro st st2 h
      rw [← Except.ok.inj h]
  | cons fa rest ih =>
      intro st st2 h
      unfold calcLoop at h
      split at h
      · exact absurd h (by simp)
      · next st1 hstep =>
          rw [ih st1 st2 h]
          exact calcStep_fc4_unchanged simTrans pinv numAtom sy dataset st fa
            st1 hstep

/-- Counterexample for C1: on a dataset whose representative first-atom set
is the nonempty `[0]` and whose forces are nonzero, the fitting stage
completes successfully, yet the fc4 tensor handed to `distribute_fc4` is
still the all-zero tensor of `__init__` — no fourth-order entry is ever
written by the fitting loop, so fc4 is not (non-trivially) populated for any
representative first atom. -/
theorem c1_counterexample :
    npUnique (([⟨0, [1, 0, 0], [⟨0, [0, 1, 0], [[(2 : ℚ), 3, 4]]⟩]⟩] :
        List FirstAtomRecord).map (fun r => r.number)) = [0] ∧
    (calculateFitStage (fun m => m) transposeM 1
        ⟨fun _ => [idMat3], fun _ => [[0]], fun _ _ => [idMat3],
          fun _ _ => [[0]]⟩
        [⟨0, [1, 0, 0], [⟨0, [0, 1, 0], [[(2 : ℚ), 3, 4]]⟩]⟩]
        (initState 1)).map (fun s => (fc4HasNonzero s.fc4, s.fc4))
      = .ok (false, zerosFC4 1) := by decide

/-- C1 (amended): the per-first-atom fitting loop writes only the fc2 and fc3
tensors; for every input, when the fitting stage of `_calculate` completes
(the point just before `distribute_fc4` is invoked), the fc4 tensor is
unchanged from its initial state — starting from `__init__`'s zero tensors,
`distribute_fc4` therefore receives an entirely zero fc4. -/
theorem c1_fitting_stage_preserves_fc4 (simTrans pinv : Mat → Mat)
    (numAtom : ℕ) (sy : SymInfo) (dataset : List FirstAtomRecord)
    (st st2 : FCState)
    (hrun : calculateFitStage simTrans pinv numAtom sy dataset st = .ok st2) :
    st2.fc4 = st.fc4 := by
  unfold calculateFitStage at hrun
  exact calcLoop_fc4_unchanged simTrans pinv numAtom sy dataset _ st st2 hrun

/-- Witness for C1 (amended): on a concrete successful run starting from the
zero-initialised tensors, the fc4 tensor before `distribute_fc4` equals the
initial (zero) one. -/
theorem c1_fitting_stage_preserves_fc4_witness :
    (calculateFitStage (fun m => m) transposeM 1
        ⟨fun _ => [idMat3], fun _ => [[0]], fun _ _ => [idMat3],
          fun _ _ => [[0]]⟩
        [⟨0, [1, 0, 0], [⟨0, [0, 1, 0], [[(2 : ℚ), 3, 4]]⟩]⟩]
        (initState 1)).map (fun s => s.fc4) = .ok (initState 1).fc4 := by
  have hok : (calculateFitStage (fun m => m) transposeM 1
      ⟨fun _ => [idMat3], fun _ => [[0]], fun _ _ => [idMat3],
        fun _ _ => [[0]]⟩
      [⟨0, [1, 0, 0], [⟨0, [0, 1, 0], [[(2 : ℚ), 3, 4]]⟩]⟩]
      (initState 1)).toOption.isSome = true := by decide
  cases hrun : calculateFitStage (fun m => m) transposeM 1
      ⟨fun _ => [idMat3], fun _ => [[0]], fun _ _ => [idMat3],
        fun _ _ => [[0]]⟩
      [⟨0, [1, 0, 0], [⟨0, [0, 1, 0], [[(2 : ℚ), 3, 4]]⟩]⟩]
      (initState 1) with
  | error e =>
      rw [hrun] at hok
      simp [Except.toOption] at hok
  | ok s =>
      have := c1_fitting_stage_preserves_fc4 (fun m => m) transposeM 1
        ⟨fun _ => [idMat3], fun _ => [[0]], fun _ _ => [idMat3],
          fun _ _ => [[0]]⟩
        [⟨0, [1, 0, 0], [⟨0, [0, 1, 0], [[(2 : ℚ), 3, 4]]⟩]⟩]
        (initState 1) s hrun
      simp [Except.map, this]
